import Mathlib

/-!
Verification of the `TextEdit` widget's text-editing core
(`src/widget/text_edit.rs`).

The development shallowly embeds the widget's state, the `insert_text`
closure and the event-processing loop of `update` over lists of
characters, with scalar quantities (widths, heights, coordinates)
modelled as integers.  Helper
functions from the repository's `text` module (line wrapping, cursor
index conversion, coordinate mapping) are not part of the provided
source; they are modelled from the specification and carry a
`Modelled from the spec:` note in their doc comment.
-/

namespace TextEditModel

/-- A character index `(line, char)` into the laid-out text, as in
`text::cursor::Index`. -/
structure Index where
  line : Nat
  char : Nat
deriving DecidableEq, Repr

/-- Modelled from the spec: ordering between two indices is defined
lexicographically by `(line, char)` (the derived `Ord` of
`text::cursor::Index`). -/
def Index.lexLt (a b : Index) : Prop :=
  a.line < b.line ∨ (a.line = b.line ∧ a.char < b.char)

instance (a b : Index) : Decidable (Index.lexLt a b) := by
  unfold Index.lexLt; infer_instance

/-- Rust's `std::cmp::min` on `Index` values: `if b < a then b else a`. -/
def cmpMin (a b : Index) : Index := if Index.lexLt b a then b else a

/-- Rust's `std::cmp::max` on `Index` values: `if b < a then a else b`. -/
def cmpMax (a b : Index) : Index := if Index.lexLt b a then a else b

/-- Modelled from the spec: one visual line after wrapping.  `chars` are
the characters addressable by a cursor on the line; `sep` is the break
character consumed by the line (a literal newline, or the whitespace
consumed by a whitespace wrap), `none` for a character wrap or the final
line. -/
structure LineInfo where
  chars : List Char
  sep : Option Char
deriving DecidableEq, Repr

/-- Number of characters the break of a line consumes. -/
def LineInfo.sepLen (li : LineInfo) : Nat := if li.sep.isSome then 1 else 0

/-- Total number of characters of the text covered by the line. -/
def LineInfo.absLen (li : LineInfo) : Nat := li.chars.length + li.sepLen

/-- Total number of characters covered by a line-descriptor sequence. -/
def totalAbs (infos : List LineInfo) : Nat := (infos.map LineInfo.absLen).sum

/-- Modelled from the spec: `index_after(char_index) -> absolute_count`
(`text::glyph::index_after_cursor`): the absolute character count of a
character index; fails when the index is out of range. -/
def index_after_cursor : List LineInfo → Index → Option Nat
  | [], _ => none
  | li :: _, ⟨0, c⟩ => if c ≤ li.chars.length then some c else none
  | li :: rest, ⟨l + 1, c⟩ =>
    (index_after_cursor rest ⟨l, c⟩).map (· + li.absLen)

/-- Modelled from the spec: `index_before(absolute_count) -> char_index`
(`text::cursor::index_before_char`): the character index before the
`n`-th character, against the earliest line containing it; fails only
when the count exceeds the total length. -/
def index_before_char : List LineInfo → Nat → Option Index
  | [], _ => none
  | li :: rest, n =>
    if n ≤ li.chars.length then some ⟨0, n⟩
    else
      match index_before_char rest (n - li.absLen) with
      | some i => some ⟨i.line + 1, i.char⟩
      | none => none

/-- An index is valid against a descriptor sequence when its absolute
character count is defined. -/
def valid_index (infos : List LineInfo) (i : Index) : Prop :=
  (index_after_cursor infos i).isSome

instance (infos : List LineInfo) (i : Index) : Decidable (valid_index infos i) := by
  unfold valid_index; infer_instance

theorem index_after_cons_zero (li : LineInfo) (rest : List LineInfo) (c : Nat) :
    index_after_cursor (li :: rest) ⟨0, c⟩ =
      if c ≤ li.chars.length then some c else none := rfl

theorem index_after_cons_succ (li : LineInfo) (rest : List LineInfo) (l c : Nat) :
    index_after_cursor (li :: rest) ⟨l + 1, c⟩ =
      (index_after_cursor rest ⟨l, c⟩).map (· + li.absLen) := rfl

theorem index_after_le_totalAbs :
    ∀ (infos : List LineInfo) (i : Index) (k : Nat),
      index_after_cursor infos i = some k → k ≤ totalAbs infos := by
  intro infos
  induction infos with
  | nil => intro i k h; simp [index_after_cursor] at h
  | cons li rest ih =>
    intro i k h
    obtain ⟨l, c⟩ := i
    have htot : totalAbs (li :: rest) = li.absLen + totalAbs rest := by
      simp [totalAbs]
    have habs : li.chars.length ≤ li.absLen := by simp [LineInfo.absLen]
    cases l with
    | zero =>
      rw [index_after_cons_zero] at h
      split at h
      · rename_i hc
        cases h
        omega
      · cases h
    | succ l' =>
      rw [index_after_cons_succ] at h
      cases hrec : index_after_cursor rest ⟨l', c⟩ with
      | none => rw [hrec] at h; cases h
      | some k' =>
        rw [hrec] at h
        simp only [Option.map_some'] at h
        cases h
        have := ih ⟨l', c⟩ k' hrec
        omega

theorem index_after_mono :
    ∀ (infos : List LineInfo) (a b : Index) (ka kb : Nat),
      index_after_cursor infos a = some ka →
      index_after_cursor infos b = some kb →
      (Index.lexLt a b ∨ a = b) → ka ≤ kb := by
  intro infos
  induction infos with
  | nil => intro a b ka kb ha; simp [index_after_cursor] at ha
  | cons li rest ih =>
    intro a b ka kb ha hb hab
    obtain ⟨al, ac⟩ := a
    obtain ⟨bl, bc⟩ := b
    simp only [Index.lexLt, Index.mk.injEq] at hab
    have habs : li.chars.length ≤ li.absLen := by simp [LineInfo.absLen]
    cases al with
    | zero =>
      rw [index_after_cons_zero] at ha
      split at ha
      · rename_i hac
        cases ha
        cases bl with
        | zero =>
          rw [index_after_cons_zero] at hb
          split at hb
          · cases hb
            omega
          · cases hb
        | succ bl' =>
          rw [index_after_cons_succ] at hb
          cases hrec : index_after_cursor rest ⟨bl', bc⟩ with
          | none => rw [hrec] at hb; cases hb
          | some kb' =>
            rw [hrec] at hb
            simp only [Option.map_some'] at hb
            cases hb
            omega
      · cases ha
    | succ al' =>
      rw [index_after_cons_succ] at ha
      cases harec : index_after_cursor rest ⟨al', ac⟩ with
      | none => rw [harec] at ha; cases ha
      | some ka' =>
        rw [harec] at ha
        simp only [Option.map_some'] at ha
        cases ha
        cases bl with
        | zero => omega
        | succ bl' =>
          rw [index_after_cons_succ] at hb
          cases hbrec : index_after_cursor rest ⟨bl', bc⟩ with
          | none => rw [hbrec] at hb; cases hb
          | some kb' =>
            rw [hbrec] at hb
            simp only [Option.map_some'] at hb
            cases hb
            have hle : ka' ≤ kb' := by
              apply ih ⟨al', ac⟩ ⟨bl', bc⟩ ka' kb' harec hbrec
              simp only [Index.lexLt, Index.mk.injEq]
              omega
            omega

theorem lexLt_total (a b : Index) : Index.lexLt a b ∨ a = b ∨ Index.lexLt b a := by
  obtain ⟨al, ac⟩ := a
  obtain ⟨bl, bc⟩ := b
  simp only [Index.lexLt, Index.mk.injEq]
  omega

theorem cmpMin_lexLe_cmpMax (a b : Index) :
    Index.lexLt (cmpMin a b) (cmpMax a b) ∨ cmpMin a b = cmpMax a b := by
  by_cases h : Index.lexLt b a
  · simp only [cmpMin, cmpMax, if_pos h]
    left; exact h
  · simp only [cmpMin, cmpMax, if_neg h]
    rcases lexLt_total a b with h' | h' | h'
    · left; exact h'
    · right; exact h'
    · exact absurd h' h

theorem cmpMin_choice (a b : Index) : cmpMin a b = a ∨ cmpMin a b = b := by
  unfold cmpMin
  split
  · right; rfl
  · left; rfl

theorem cmpMax_choice (a b : Index) : cmpMax a b = a ∨ cmpMax a b = b := by
  unfold cmpMax
  split
  · left; rfl
  · right; rfl

/-- The two wrap policies of `widget::primitive::text::Wrap`. -/
inductive Wrap
  | Whitespace
  | Character
deriving DecidableEq, Repr

/-- Modelled from the spec: scan the remaining text left to right
accumulating glyph widths; report the position of the first literal
newline (flag `true`) or of the first character whose accumulated
width would exceed the maximum width (flag `false`); `none` when the
whole remaining text fits with no newline. -/
def findBrk (measure : Char → ℤ) (maxW : ℤ) : ℤ → List Char → Option (Nat × Bool)
  | _, [] => none
  | acc, c :: cs =>
    if c = '\n' then some (0, true)
    else if maxW < acc + measure c then some (0, false)
    else (findBrk measure maxW (acc + measure c) cs).map (fun p => (p.1 + 1, p.2))

/-- Modelled from the spec: the most recent whitespace boundary at or
before position `j` of the line being scanned (the overflow position);
`none` when the line has no whitespace there. -/
def lastWsLe : List Char → Nat → Option Nat
  | [], _ => none
  | c :: _, 0 => if c.isWhitespace then some 0 else none
  | c :: cs, j + 1 =>
    match lastWsLe cs j with
    | some w => some (w + 1)
    | none => if c.isWhitespace then some 0 else none

/-- Modelled from the spec: split one wrapped line off the front of the
remaining text, together with the unconsumed remainder; `none` when the
remainder forms the final line.  A literal newline always ends a line;
on width overflow the `Whitespace` policy backs up to the most recent
whitespace (consumed into the line as its break) and falls back to a
character break when the line has none; the `Character` policy breaks
immediately before the overflowing character (consuming at least one
character so that scanning always advances). -/
def splitLine (measure : Char → ℤ) (maxW : ℤ) (policy : Wrap) (cs : List Char) :
    Option (LineInfo × List Char) :=
  match findBrk measure maxW 0 cs with
  | none => none
  | some (k, true) => some (⟨cs.take k, some '\n'⟩, cs.drop (k + 1))
  | some (j, false) =>
    match policy with
    | Wrap.Character => some (⟨cs.take (max j 1), none⟩, cs.drop (max j 1))
    | Wrap.Whitespace =>
      match lastWsLe cs j with
      | some w => some (⟨cs.take w, cs.get? w⟩, cs.drop (w + 1))
      | none => some (⟨cs.take (max j 1), none⟩, cs.drop (max j 1))

theorem findBrk_lt (measure : Char → ℤ) (maxW : ℤ) :
    ∀ (cs : List Char) (acc : ℤ) (j : Nat) (b : Bool),
      findBrk measure maxW acc cs = some (j, b) → j < cs.length := by
  intro cs
  induction cs with
  | nil => intro acc j b h; simp [findBrk] at h
  | cons c cs ih =>
    intro acc j b h
    simp only [findBrk] at h
    split at h
    · cases h; simp
    · split at h
      · cases h; simp
      · cases hrec : findBrk measure maxW (acc + measure c) cs with
        | none => rw [hrec] at h; cases h
        | some p =>
          rw [hrec] at h
          simp only [Option.map_some'] at h
          cases h
          have := ih (acc + measure c) p.1 p.2 (by rw [hrec])
          simp only [List.length_cons]
          omega

theorem lastWsLe_spec :
    ∀ (cs : List Char) (j w : Nat), lastWsLe cs j = some w →
      w ≤ j ∧ w < cs.length ∧ ∃ c, cs.get? w = some c ∧ c.isWhitespace = true := by
  intro cs
  induction cs with
  | nil => intro j w h; simp [lastWsLe] at h
  | cons c cs ih =>
    intro j w h
    cases j with
    | zero =>
      simp only [lastWsLe] at h
      by_cases hws : c.isWhitespace = true
      · rw [if_pos hws] at h
        cases h
        exact ⟨Nat.le_refl 0, by simp, c, rfl, hws⟩
      · rw [if_neg hws] at h
        cases h
    | succ j' =>
      cases hrec : lastWsLe cs j' with
      | some w' =>
        simp only [lastWsLe, hrec] at h
        have hww : w = w' + 1 := by
          cases h; rfl
        subst hww
        obtain ⟨h1, h2, c', hc', hw⟩ := ih j' w' hrec
        refine ⟨by omega, by simp only [List.length_cons]; omega, c', ?_, hw⟩
        simpa using hc'
      | none =>
        simp only [lastWsLe, hrec] at h
        by_cases hws : c.isWhitespace = true
        · rw [if_pos hws] at h
          cases h
          exact ⟨by omega, by simp, c, rfl, hws⟩
        · rw [if_neg hws] at h
          cases h

theorem splitLine_spec (measure : Char → ℤ) (maxW : ℤ) (policy : Wrap)
    (cs : List Char) (li : LineInfo) (rest : List Char)
    (h : splitLine measure maxW policy cs = some (li, rest)) :
    li.absLen + rest.length = cs.length ∧ rest.length < cs.length := by
  unfold splitLine at h
  cases hbrk : findBrk measure maxW 0 cs with
  | none => rw [hbrk] at h; cases h
  | some p =>
    rw [hbrk] at h
    obtain ⟨pos, flag⟩ := p
    have hlt : pos < cs.length := findBrk_lt measure maxW cs 0 pos flag hbrk
    cases flag with
    | true =>
      simp only at h
      cases h
      simp [LineInfo.absLen, LineInfo.sepLen, List.length_take, List.length_drop]
      omega
    | false =>
      simp only at h
      have hchar :
          (some (⟨cs.take (max pos 1), none⟩, cs.drop (max pos 1)) :
              Option (LineInfo × List Char)) = some (li, rest) →
            li.absLen + rest.length = cs.length ∧ rest.length < cs.length := by
        intro hh
        cases hh
        simp [LineInfo.absLen, LineInfo.sepLen, List.length_take, List.length_drop]
        omega
      cases policy with
      | Character => exact hchar h
      | Whitespace =>
        cases hws : lastWsLe cs pos with
        | none => rw [hws] at h; exact hchar h
        | some w =>
          rw [hws] at h
          cases h
          obtain ⟨hw1, hw2, c', hc', _⟩ := lastWsLe_spec cs pos w hws
          have hsep : LineInfo.sepLen ⟨cs.take w, cs.get? w⟩ = 1 := by
            simp [LineInfo.sepLen, hc', hw2]
          have h1 : (cs.take w).length = w := by
            rw [List.length_take]; omega
          have h2 : (cs.drop (w + 1)).length = cs.length - (w + 1) :=
            List.length_drop _ _
          simp only [LineInfo.absLen, hsep, h1, h2]
          omega

/-- Modelled from the spec: the wrapped line descriptors of a text,
computed with explicit recursion fuel.  Each emitted line consumes at
least one character of the remainder, so fuel equal to the text length
always suffices; the fuel-exhausted base case is only reached on the
empty remainder, where it agrees with the `splitLine = none` case. -/
def breakLinesF (measure : Char → ℤ) (maxW : ℤ) (policy : Wrap) :
    Nat → List Char → List LineInfo
  | 0, cs => [⟨cs, none⟩]
  | fuel + 1, cs =>
    match splitLine measure maxW policy cs with
    | none => [⟨cs, none⟩]
    | some (li, rest) => li :: breakLinesF measure maxW policy fuel rest

/-- Modelled from the spec: the Line Breaker.  Empty text yields exactly
one empty line descriptor. -/
def breakLines (measure : Char → ℤ) (maxW : ℤ) (policy : Wrap) (cs : List Char) :
    List LineInfo :=
  breakLinesF measure maxW policy cs.length cs

theorem totalAbs_breakLinesF (measure : Char → ℤ) (maxW : ℤ) (policy : Wrap) :
    ∀ (fuel : Nat) (cs : List Char), cs.length ≤ fuel →
      totalAbs (breakLinesF measure maxW policy fuel cs) = cs.length := by
  intro fuel
  induction fuel with
  | zero =>
    intro cs hcs
    have : cs = [] := List.eq_nil_of_length_eq_zero (by omega)
    subst this
    simp [breakLinesF, totalAbs, LineInfo.absLen, LineInfo.sepLen]
  | succ fuel ih =>
    intro cs hcs
    simp only [breakLinesF]
    cases hsplit : splitLine measure maxW policy cs with
    | none => simp [totalAbs, LineInfo.absLen, LineInfo.sepLen]
    | some p =>
      obtain ⟨li, rest⟩ := p
      obtain ⟨hlen, hlt⟩ := splitLine_spec measure maxW policy cs li rest hsplit
      have hrest : rest.length ≤ fuel := by omega
      have := ih rest hrest
      simp only [totalAbs, List.map_cons, List.sum_cons]
      simp only [totalAbs] at this
      omega

theorem totalAbs_breakLines (measure : Char → ℤ) (maxW : ℤ) (policy : Wrap)
    (cs : List Char) :
    totalAbs (breakLines measure maxW policy cs) = cs.length :=
  totalAbs_breakLinesF measure maxW policy cs.length cs (Nat.le_refl _)

theorem index_before_breakLinesF_isSome (measure : Char → ℤ) (maxW : ℤ) (policy : Wrap) :
    ∀ (fuel : Nat) (cs : List Char) (n : Nat), cs.length ≤ fuel → n ≤ cs.length →
      (index_before_char (breakLinesF measure maxW policy fuel cs) n).isSome := by
  intro fuel
  induction fuel with
  | zero =>
    intro cs n hcs hn
    have : cs = [] := List.eq_nil_of_length_eq_zero (by omega)
    subst this
    have : n = 0 := by simpa using hn
    subst this
    simp [breakLinesF, index_before_char]
  | succ fuel ih =>
    intro cs n hcs hn
    simp only [breakLinesF]
    cases hsplit : splitLine measure maxW policy cs with
    | none =>
      simp only [index_before_char]
      rw [if_pos hn]
      simp
    | some p =>
      obtain ⟨li, rest⟩ := p
      obtain ⟨hlen, hlt⟩ := splitLine_spec measure maxW policy cs li rest hsplit
      simp only [index_before_char]
      split
      · simp
      · rename_i hgt
        have hrest : rest.length ≤ fuel := by omega
        have habs : li.chars.length ≤ li.absLen := by simp [LineInfo.absLen]
        have hsep : li.absLen ≤ li.chars.length + 1 := by
          simp only [LineInfo.absLen, LineInfo.sepLen]
          split <;> omega
        have hn' : n - li.absLen ≤ rest.length := by omega
        have := ih rest (n - li.absLen) hrest hn'
        cases hrec : index_before_char (breakLinesF measure maxW policy fuel rest)
            (n - li.absLen) with
        | none => rw [hrec] at this; simp at this
        | some i => simp

/-- Horizontal or vertical alignment of the text inside its rectangle. -/
inductive Align
  | Start
  | Middle
  | End
deriving DecidableEq, Repr

/-- An axis-aligned bounding rectangle with rational coordinates. -/
structure Rect where
  left : ℤ
  right : ℤ
  bottom : ℤ
  top : ℤ
deriving DecidableEq, Repr

/-- Width of the rectangle, `rect.w()`. -/
def Rect.w (r : Rect) : ℤ := r.right - r.left

/-- Height of the rectangle, `rect.h()`. -/
def Rect.h (r : Rect) : ℤ := r.top - r.bottom

/-- Horizontal centre of the rectangle. -/
def Rect.centerX (r : Rect) : ℤ := (r.left + r.right) / 2

/-- Vertical centre of the rectangle. -/
def Rect.centerY (r : Rect) : ℤ := (r.bottom + r.top) / 2

/-- The per-update-cycle read-only layout configuration consumed by
`update`: font metrics, style options and the widget's bounding
rectangle. -/
structure Ctx where
  measure : Char → ℤ
  font_size : ℤ
  line_wrap : Wrap
  x_align : Align
  y_align : Align
  line_spacing : ℤ
  restrict_to_height : Bool
  rect : Rect

/-- The `line_infos` helper of `update`: wrapped line descriptors of a
text at the rectangle's width under the configured wrap policy. -/
def line_infos_of (ctx : Ctx) (text : List Char) : List LineInfo :=
  breakLines ctx.measure ctx.rect.w ctx.line_wrap text

/-- Modelled from the spec: `text::height` — the vertical extent
`line_count * line_height + (line_count - 1) * spacing` of the wrapped
block, zero for zero lines. -/
def text_height (num_lines : Nat) (font_size line_spacing : ℤ) : ℤ :=
  if num_lines = 0 then 0
  else num_lines * font_size + (num_lines - 1 : Nat) * line_spacing

/-- Modelled from the spec: per-character boundary x positions of one
line (`length + 1` positions), starting from the aligned line origin. -/
def boundary_xs (measure : Char → ℤ) : ℤ → List Char → List ℤ
  | offset, [] => [offset]
  | offset, c :: cs => offset :: boundary_xs measure (offset + measure c) cs

/-- Modelled from the spec: the x positions of all cursor boundaries on
a line, horizontally aligned inside the bounding rectangle. -/
def line_xs (ctx : Ctx) (li : LineInfo) : List ℤ :=
  let lw := (li.chars.map ctx.measure).sum
  let offset :=
    match ctx.x_align with
    | Align.Start => ctx.rect.left
    | Align.Middle => ctx.rect.left + (ctx.rect.w - lw) / 2
    | Align.End => ctx.rect.right - lw
  boundary_xs ctx.measure offset li.chars

/-- Modelled from the spec: top edge of the wrapped block after vertical
alignment of its total height inside the bounding rectangle. -/
def block_top (ctx : Ctx) (num_lines : Nat) : ℤ :=
  match ctx.y_align with
  | Align.Start => ctx.rect.bottom + text_height num_lines ctx.font_size ctx.line_spacing
  | Align.Middle =>
    ctx.rect.centerY + text_height num_lines ctx.font_size ctx.line_spacing / 2
  | Align.End => ctx.rect.top

/-- Modelled from the spec: the vertical band `(bottom, top)` of line
`i` (lines are stacked downwards from the block top). -/
def line_y_band (ctx : Ctx) (num_lines i : Nat) : ℤ × ℤ :=
  let top := block_top ctx num_lines - i * (ctx.font_size + ctx.line_spacing)
  (top - ctx.font_size, top)

/-- Distance from a y coordinate to a vertical band, zero inside it. -/
def y_dist (y : ℤ) (band : ℤ × ℤ) : ℤ :=
  if band.2 < y then y - band.2 else if y < band.1 then band.1 - y else 0

/-- Index of the first minimal element of a list of distances, given the
best candidate so far. -/
def argmin_first_aux (best : Nat × ℤ) (i : Nat) : List ℤ → Nat
  | [] => best.1
  | d :: rest =>
    if d < best.2 then argmin_first_aux (i, d) (i + 1) rest
    else argmin_first_aux best (i + 1) rest

/-- Modelled from the spec: index of the first minimal element of a list
of distances (ties prefer the earlier index); `0` on the empty list. -/
def argmin_first : List ℤ → Nat
  | [] => 0
  | d :: rest => argmin_first_aux (0, d) 1 rest

/-- Distance between two scalar coordinates. -/
def scalar_dist (a b : ℤ) : ℤ := if a ≤ b then b - a else a - b

/-- Modelled from the spec: `closest_cursor_index_on_line` — the char
boundary on a line whose x position is horizontally nearest to `x`,
ties preferring the earlier (lower `char`) boundary. -/
def closest_index_on_line (ctx : Ctx) (x : ℤ) (li : LineInfo) : Nat :=
  argmin_first ((line_xs ctx li).map (fun xi => scalar_dist x xi))

/-- The `closest_cursor_index_and_xy` helper of `update`, modelled from
the spec: the index nearest to a point — nearest line vertically, then
nearest boundary horizontally on it; fails only when there are zero
lines. -/
def closest_cursor_index_and_xy (ctx : Ctx) (xy : ℤ × ℤ) (infos : List LineInfo) :
    Option Index :=
  match infos with
  | [] => none
  | _ :: _ =>
    let n := infos.length
    let l := argmin_first
      ((List.range n).map (fun i => y_dist xy.2 (line_y_band ctx n i)))
    some ⟨l, closest_index_on_line ctx xy.1 (infos.getD l ⟨[], none⟩)⟩

/-- The `xy_at` helper of `update`, modelled from the spec: the x
position of a cursor index (the y range is not needed by the reducer);
fails when the index is outside the current lines. -/
def xy_at (ctx : Ctx) (infos : List LineInfo) (idx : Index) : Option ℤ :=
  match infos.get? idx.line with
  | none => none
  | some li => (line_xs ctx li).get? idx.char

/-- The `get_index_on_line` helper of `update`, modelled from the spec:
nearest index at `x` on a specific line; fails when the line does not
exist. -/
def get_index_on_line (ctx : Ctx) (x : ℤ) (line_idx : Nat) (infos : List LineInfo) :
    Option Index :=
  (infos.get? line_idx).map (fun li => ⟨line_idx, closest_index_on_line ctx x li⟩)

/-- Modelled from the spec: `text::cursor::Index::previous` — move one
character back, wrapping to the end of the previous line; fails at the
buffer start or out of range (the caller saturates). -/
def cursor_previous (infos : List LineInfo) (idx : Index) : Option Index :=
  if 0 < idx.char then
    if idx.line < infos.length then some ⟨idx.line, idx.char - 1⟩ else none
  else if 0 < idx.line then
    match infos.get? (idx.line - 1) with
    | some li => some ⟨idx.line - 1, li.chars.length⟩
    | none => none
  else none

/-- Modelled from the spec: `text::cursor::Index::next` — move one
character forward, wrapping to the start of the next line; fails at the
buffer end or out of range (the caller saturates). -/
def cursor_next (infos : List LineInfo) (idx : Index) : Option Index :=
  match infos.get? idx.line with
  | none => none
  | some li =>
    if idx.char < li.chars.length then some ⟨idx.line, idx.char + 1⟩
    else if idx.line + 1 < infos.length then some ⟨idx.line + 1, 0⟩
    else none

/-- The position of the `Cursor` over the text. -/
inductive Cursor
  | Idx (idx : Index)
  | Selection (start stop : Index)
deriving DecidableEq, Repr

/-- Track whether some sort of dragging is currently occurring. -/
inductive Drag
  | Selecting
  | MoveSelection
deriving DecidableEq, Repr

/-- A cursor is valid against a descriptor sequence when each of its
indices has a defined absolute character count. -/
def valid_cursor (infos : List LineInfo) : Cursor → Prop
  | Cursor.Idx i => valid_index infos i
  | Cursor.Selection st en => valid_index infos st ∧ valid_index infos en

instance (infos : List LineInfo) (c : Cursor) : Decidable (valid_cursor infos c) := by
  cases c <;> (unfold valid_cursor; infer_instance)

/-- The `(cursor_start, cursor_end)` pair computed at the top of
`insert_text`: the index itself twice for `Idx`, and
`(std::cmp::min(start, end), std::cmp::max(start, end))` for
`Selection`. -/
def cursor_range : Cursor → Index × Index
  | Cursor.Idx idx => (idx, idx)
  | Cursor.Selection st en => (cmpMin st en, cmpMax st en)

/-- The `start_idx` of `insert_text`:
`index_after_cursor(infos, cursor_start).unwrap_or(0)`. -/
def start_count (infos : List LineInfo) (cursor : Cursor) : Nat :=
  (index_after_cursor infos (cursor_range cursor).1).getD 0

/-- The `end_idx` of `insert_text`:
`index_after_cursor(infos, cursor_end).unwrap_or(0)`. -/
def end_count (infos : List LineInfo) (cursor : Cursor) : Nat :=
  (index_after_cursor infos (cursor_range cursor).2).getD 0

/-- The `new_text` of `insert_text`: characters up to the range start,
then the inserted string, then the characters from the range end. -/
def spliced (string : List Char) (cursor : Cursor) (text : List Char)
    (infos : List LineInfo) : List Char :=
  text.take (start_count infos cursor) ++ string ++ text.drop (end_count infos cursor)

/-- The wrapped height of the spliced text, as checked by `insert_text`
against the rectangle's height. -/
def attempted_height (ctx : Ctx) (string : List Char) (cursor : Cursor)
    (text : List Char) (infos : List LineInfo) : ℤ :=
  text_height (line_infos_of ctx (spliced string cursor text infos)).length
    ctx.font_size ctx.line_spacing

/-- The `insert_text` closure of `update`: splice the string into the
text over the cursor's normalized range, recompute the line infos, and
either reject the edit on height overflow or return the new text, the
new `Idx` cursor at the end of the insertion, and the new line infos. -/
def insert_text (ctx : Ctx) (string : List Char) (cursor : Cursor) (text : List Char)
    (infos : List LineInfo) : Option (List Char × Cursor × List LineInfo) :=
  if attempted_height ctx string cursor text infos < ctx.rect.h ∨
      ctx.restrict_to_height = false then
    some (spliced string cursor text infos,
      Cursor.Idx ((index_before_char (line_infos_of ctx (spliced string cursor text infos))
        (start_count infos cursor + string.length)).getD ⟨0, string.length⟩),
      line_infos_of ctx (spliced string cursor text infos))
  else
    none

/-- The mutable widget state threaded through one `update` cycle: the
text buffer (a `Cow`, owned on first mutation), the working `cursor` and
`drag` locals, and the cached `line_infos`. -/
structure EState where
  text : List Char
  cursor : Cursor
  drag : Option Drag
  lineInfos : List LineInfo
deriving DecidableEq, Repr

/-- The keyboard keys distinguished by the `Press` arm of `update`. -/
inductive Key
  | backspace
  | left
  | right
  | up
  | down
  | a
  | e
  | ret
  | otherKey
deriving DecidableEq, Repr

/-- The classified input events consumed by `update`, as delivered by
the widget framework: left mouse press/release/drag with a position
relative to the rectangle centre, key presses with a Ctrl-modifier
flag, and text-insert events. -/
inductive Event
  | pressMouseLeft (relXy : ℤ × ℤ)
  | pressKey (ctrl : Bool) (key : Key)
  | releaseMouseLeft
  | textEvent (ctrl : Bool) (string : List Char)
  | dragMouseLeft (toXy : ℤ × ℤ)
  | unhandled
deriving DecidableEq, Repr

/-- The ways an `update` arm can abort: the `unimplemented!()` in the
`Drag::MoveSelection` arm, and the `.expect(..)` calls on out-of-range
cursor indices. -/
inductive Abort
  | moveSelectionUnimplemented
  | indexOutOfRange
deriving DecidableEq, Repr

/-- The four reserved control glyphs `U+F700`..`U+F703` filtered out of
text-insert handling (arrow-key text leaked by at least one platform). -/
def reserved_strings : List (List Char) :=
  [[''], [''], [''], ['']]

/-- `utils::vec2_add`. -/
def vec2_add (a b : ℤ × ℤ) : ℤ × ℤ := (a.1 + b.1, a.2 + b.2)

/-- The anchor index of a cursor: the index itself for `Idx`, the
`start` for `Selection` (as matched inline by the Up/Down and Drag
arms of `update`). -/
def cursor_anchor : Cursor → Index
  | Cursor.Idx idx => idx
  | Cursor.Selection st _ => st

/-- The Up/Down arm's cursor computation: resolve the anchor's x, move
to `line - 1` (saturating at zero) or `line + 1`, take the nearest
index at that x on the target line, and keep the anchor index whenever
either step fails. -/
def vertical_move (ctx : Ctx) (s : EState) (isUp : Bool) : Index :=
  let cursor_idx := cursor_anchor s.cursor
  let next_line := if isUp then cursor_idx.line - 1 else cursor_idx.line + 1
  ((xy_at ctx s.lineInfos cursor_idx).bind
    (fun x => get_index_on_line ctx x next_line s.lineInfos)).getD cursor_idx

/-- The keyboard-press arm of `update`. -/
def processKey (ctx : Ctx) (s : EState) (ctrl : Bool) : Key → Except Abort EState
  | Key.backspace =>
    match s.cursor with
    | Cursor.Idx cursor_idx =>
      match index_after_cursor s.lineInfos cursor_idx with
      | some idx =>
        if 0 < idx then
          let idx_to_remove := idx - 1
          let new_text := s.text.take idx_to_remove ++ s.text.drop idx
          let new_infos := line_infos_of ctx new_text
          Except.ok { s with
            text := new_text,
            cursor := Cursor.Idx ((index_before_char new_infos idx_to_remove).getD ⟨0, 0⟩),
            lineInfos := new_infos }
        else Except.ok s
      | none => Except.ok s
    | Cursor.Selection st en =>
      match index_after_cursor s.lineInfos st, index_after_cursor s.lineInfos en with
      | some si, some ei =>
        let p := if si ≤ ei then (si, ei) else (ei, si)
        let new_cursor_char_idx := if 0 < p.1 then p.1 else 0
        match index_before_char s.lineInfos new_cursor_char_idx with
        | some nci =>
          let new_text := s.text.take p.1 ++ s.text.drop p.2
          Except.ok { s with
            cursor := Cursor.Idx nci,
            text := new_text,
            lineInfos := line_infos_of ctx new_text }
        | none => Except.error Abort.indexOutOfRange
      | _, _ => Except.error Abort.indexOutOfRange
  | Key.left =>
    if ctrl then Except.ok s
    else
      match s.cursor with
      | Cursor.Idx cursor_idx =>
        Except.ok { s with
          cursor := Cursor.Idx ((cursor_previous s.lineInfos cursor_idx).getD cursor_idx) }
      | Cursor.Selection st en =>
        Except.ok { s with cursor := Cursor.Idx (cmpMin st en) }
  | Key.right =>
    if ctrl then Except.ok s
    else
      match s.cursor with
      | Cursor.Idx cursor_idx =>
        Except.ok { s with
          cursor := Cursor.Idx ((cursor_next s.lineInfos cursor_idx).getD cursor_idx) }
      | Cursor.Selection st en =>
        Except.ok { s with cursor := Cursor.Idx (cmpMax st en) }
  | Key.up => Except.ok { s with cursor := Cursor.Idx (vertical_move ctx s true) }
  | Key.down => Except.ok { s with cursor := Cursor.Idx (vertical_move ctx s false) }
  | Key.a =>
    if ctrl then
      match index_before_char s.lineInfos s.text.length with
      | some en => Except.ok { s with cursor := Cursor.Selection ⟨0, 0⟩ en }
      | none => Except.error Abort.indexOutOfRange
    else Except.ok s
  | Key.e => Except.ok s
  | Key.ret =>
    match insert_text ctx ['\n'] s.cursor s.text s.lineInfos with
    | some (new_text, new_cursor, new_line_infos) =>
      Except.ok { s with text := new_text, cursor := new_cursor, lineInfos := new_line_infos }
    | none => Except.ok s
  | Key.otherKey => Except.ok s

/-- One step of the `'events` loop of `update`: process a single
classified input event against the working state. -/
def processEvent (ctx : Ctx) (s : EState) : Event → Except Abort EState
  | Event.pressMouseLeft relXy =>
    let absXy := vec2_add relXy (ctx.rect.centerX, ctx.rect.centerY)
    let s1 :=
      match closest_cursor_index_and_xy ctx absXy s.lineInfos with
      | some closest_cursor => { s with cursor := Cursor.Idx closest_cursor }
      | none => s
    Except.ok { s1 with drag := some Drag.Selecting }
  | Event.pressKey ctrl key => processKey ctx s ctrl key
  | Event.releaseMouseLeft => Except.ok { s with drag := none }
  | Event.textEvent ctrl string =>
    if ctrl = true ∨ string.length = 0 ∨ string.head? = none then Except.ok s
    else if string ∈ reserved_strings then Except.ok s
    else
      match insert_text ctx string s.cursor s.text s.lineInfos with
      | some (new_text, new_cursor, new_line_infos) =>
        Except.ok { s with text := new_text, cursor := new_cursor, lineInfos := new_line_infos }
      | none => Except.ok s
  | Event.dragMouseLeft toXy =>
    match s.drag with
    | some Drag.Selecting =>
      let start_cursor_idx := cursor_anchor s.cursor
      let absXy := vec2_add toXy (ctx.rect.centerX, ctx.rect.centerY)
      match closest_cursor_index_and_xy ctx absXy s.lineInfos with
      | some end_cursor_idx =>
        Except.ok { s with cursor := Cursor.Selection start_cursor_idx end_cursor_idx }
      | none => Except.ok s
    | some Drag.MoveSelection => Except.error Abort.moveSelectionUnimplemented
    | none => Except.ok s
  | Event.unhandled => Except.ok s

/-- Fold the events of one update cycle, aborting on a panic. -/
def runEvents (ctx : Ctx) : EState → List Event → Except Abort EState
  | s, [] => Except.ok s
  | s, e :: es =>
    match processEvent ctx s e with
    | Except.ok s' => runEvents ctx s' es
    | Except.error a => Except.error a

/-- One full `update` cycle: recompute the line infos for the current
text (the `write_if_different` pass), then fold the cycle's events. -/
def runCycle (ctx : Ctx) (s : EState) (events : List Event) : Except Abort EState :=
  runEvents ctx { s with lineInfos := line_infos_of ctx s.text } events

/-- The persisted state created by `init_state` for a given initial
text: caret at `(0, 0)`, no drag, empty line-info cache. -/
def init_state (text : List Char) : EState :=
  { text := text, cursor := Cursor.Idx ⟨0, 0⟩, drag := none, lineInfos := [] }

/-- States reachable from an initial state by complete, non-aborting
update cycles, each with its own layout configuration and event
batch. -/
inductive Reachable : EState → Prop
  | init (text : List Char) : Reachable (init_state text)
  | cycle (s s' : EState) (ctx : Ctx) (events : List Event) :
      Reachable s → runCycle ctx s events = Except.ok s' → Reachable s'

instance : DecidableEq (Except Abort EState) := fun a b =>
  match a, b with
  | Except.ok x, Except.ok y =>
    if h : x = y then Decidable.isTrue (by rw [h])
    else Decidable.isFalse (fun hc => h (Except.ok.inj hc))
  | Except.error x, Except.error y =>
    if h : x = y then Decidable.isTrue (by rw [h])
    else Decidable.isFalse (fun hc => h (Except.error.inj hc))
  | Except.ok _, Except.error _ => Decidable.isFalse (fun hc => Except.noConfusion hc)
  | Except.error _, Except.ok _ => Decidable.isFalse (fun hc => Except.noConfusion hc)

/-- Formalisation of the claim's wording for vertical cursor movement:
resolve the current x of the index, clamp the target line to
`[0, line_count - 1]`, and take the nearest index on the target line at
that x. -/
def move_vertical_claim (ctx : Ctx) (infos : List LineInfo) (idx : Index)
    (isUp : Bool) : Option Index :=
  let target := min (if isUp then idx.line - 1 else idx.line + 1) (infos.length - 1)
  (xy_at ctx infos idx).bind (fun x => get_index_on_line ctx x target infos)

/-- Vertical cursor movement as the code actually behaves: the target
line is `line - 1` (saturating at zero) or `line + 1` with no upper
clamp, and the index is kept unchanged whenever the position cannot be
resolved or the target line does not exist. -/
def move_vertical_amended (ctx : Ctx) (infos : List LineInfo) (idx : Index)
    (isUp : Bool) : Index :=
  match xy_at ctx infos idx with
  | none => idx
  | some x =>
    match get_index_on_line ctx x (if isUp then idx.line - 1 else idx.line + 1) infos with
    | none => idx
    | some i => i

/-- The drag field values that actually occur: no drag, or a selecting
drag. -/
def dragOK (d : Option Drag) : Prop := d = none ∨ d = some Drag.Selecting

theorem totalAbs_line_infos_of (ctx : Ctx) (text : List Char) :
    totalAbs (line_infos_of ctx text) = text.length :=
  totalAbs_breakLines _ _ _ _

theorem index_before_line_infos_isSome (ctx : Ctx) (text : List Char) (n : Nat)
    (hn : n ≤ text.length) :
    (index_before_char (line_infos_of ctx text) n).isSome :=
  index_before_breakLinesF_isSome ctx.measure ctx.rect.w ctx.line_wrap
    text.length text n (Nat.le_refl _) hn

theorem valid_cursor_range (infos : List LineInfo) (c : Cursor)
    (h : valid_cursor infos c) :
    valid_index infos (cursor_range c).1 ∧ valid_index infos (cursor_range c).2 := by
  cases c with
  | Idx i => exact ⟨h, h⟩
  | Selection st en =>
    obtain ⟨h1, h2⟩ := h
    constructor
    · have he : (cursor_range (Cursor.Selection st en)).1 = cmpMin st en := rfl
      rw [he]
      rcases cmpMin_choice st en with hm | hm <;> rw [hm] <;> assumption
    · have he : (cursor_range (Cursor.Selection st en)).2 = cmpMax st en := rfl
      rw [he]
      rcases cmpMax_choice st en with hm | hm <;> rw [hm] <;> assumption

theorem range_lexLe (c : Cursor) :
    Index.lexLt (cursor_range c).1 (cursor_range c).2 ∨
      (cursor_range c).1 = (cursor_range c).2 := by
  cases c with
  | Idx i => right; rfl
  | Selection st en => exact cmpMin_lexLe_cmpMax st en

theorem start_le_end_count (infos : List LineInfo) (c : Cursor)
    (h : valid_cursor infos c) :
    start_count infos c ≤ end_count infos c := by
  obtain ⟨h1, h2⟩ := valid_cursor_range infos c h
  obtain ⟨ka, hka⟩ := Option.isSome_iff_exists.mp h1
  obtain ⟨kb, hkb⟩ := Option.isSome_iff_exists.mp h2
  have hm := index_after_mono infos _ _ ka kb hka hkb (range_lexLe c)
  simp only [start_count, end_count, hka, hkb, Option.getD_some]
  exact hm

theorem end_count_le_length (ctx : Ctx) (text : List Char) (c : Cursor)
    (h : valid_cursor (line_infos_of ctx text) c) :
    end_count (line_infos_of ctx text) c ≤ text.length := by
  obtain ⟨_, h2⟩ := valid_cursor_range _ c h
  obtain ⟨kb, hkb⟩ := Option.isSome_iff_exists.mp h2
  have hb := index_after_le_totalAbs _ _ _ hkb
  rw [totalAbs_line_infos_of] at hb
  simp only [end_count, hkb, Option.getD_some]
  exact hb

/-- Layout configuration used by the concrete witnesses: unit-width
glyphs, font size 10, line spacing 1, whitespace wrapping, left/top
alignment, height restriction on, a 100×100 rectangle. -/
def ctxW : Ctx :=
  { measure := fun _ => 1, font_size := 10, line_wrap := Wrap.Whitespace,
    x_align := Align.Start, y_align := Align.End, line_spacing := 1,
    restrict_to_height := true, rect := ⟨0, 100, 0, 100⟩ }

/-- Witness layout whose rectangle is too short for even one line. -/
def ctxSmall : Ctx := { ctxW with rect := ⟨0, 100, 0, 5⟩ }

/-- Witness layout five glyphs wide, used to exercise wrapping. -/
def ctxNarrow : Ctx := { ctxW with rect := ⟨0, 5, 0, 100⟩ }

/-- Witness layout in which the glyph `a` has zero advance width. -/
def ctxZero : Ctx := { ctxW with measure := fun c => if c = 'a' then 0 else 1 }

/-- Witness state for a context: text `"ab"`, caret at the origin, no
drag, line infos in sync with the text. -/
def sAb (ctx : Ctx) : EState :=
  { text := ['a', 'b'], cursor := Cursor.Idx ⟨0, 0⟩, drag := none,
    lineInfos := line_infos_of ctx ['a', 'b'] }

theorem lexLt_asymm (a b : Index) (h : Index.lexLt a b) : ¬ Index.lexLt b a := by
  obtain ⟨al, ac⟩ := a
  obtain ⟨bl, bc⟩ := b
  simp only [Index.lexLt] at h ⊢
  omega

theorem lexLt_irrefl (a : Index) : ¬ Index.lexLt a a := by
  obtain ⟨al, ac⟩ := a
  simp only [Index.lexLt]
  omega

/-- C3: an accepted insertion produces exactly the character-wise splice
`text[..start_count] ++ string ++ text[end_count..]` over the cursor's
normalized absolute-character range, so the total character count
changes by `count(string)` minus the removed range's length. -/
theorem C3_accepted_insert_splice (ctx : Ctx) (string : List Char) (cursor : Cursor)
    (text : List Char) (infos : List LineInfo)
    (hsync : infos = line_infos_of ctx text)
    (hvalid : valid_cursor infos cursor)
    (nt : List Char) (nc : Cursor) (ni : List LineInfo)
    (hins : insert_text ctx string cursor text infos = some (nt, nc, ni)) :
    nt = text.take (start_count infos cursor) ++ string ++
        text.drop (end_count infos cursor) ∧
    start_count infos cursor ≤ end_count infos cursor ∧
    end_count infos cursor ≤ text.length ∧
    nt.length + (end_count infos cursor - start_count infos cursor) =
      text.length + string.length := by
  have hse := start_le_end_count infos cursor hvalid
  have hel : end_count infos cursor ≤ text.length := by
    subst hsync
    exact end_count_le_length ctx text cursor hvalid
  unfold insert_text at hins
  split at hins
  · cases hins
    refine ⟨rfl, hse, hel, ?_⟩
    unfold spliced
    simp only [List.length_append, List.length_take, List.length_drop]
    omega
  · cases hins

/-- C3 witness: with text `"ab"`, no wrapping, cursor `Idx(0,0)`,
inserting `"X"` yields text `"Xab"` and cursor `Idx(0,1)`, and the
splice/length relations hold at this input. -/
theorem C3_accepted_insert_splice_witness :
    (insert_text ctxW ['X'] (Cursor.Idx ⟨0, 0⟩) ['a', 'b']
        (line_infos_of ctxW ['a', 'b']) =
      some (['X', 'a', 'b'], Cursor.Idx ⟨0, 1⟩, [⟨['X', 'a', 'b'], none⟩])) ∧
    (['X', 'a', 'b'] =
        (['a', 'b'].take (start_count (line_infos_of ctxW ['a', 'b']) (Cursor.Idx ⟨0, 0⟩))
          ++ ['X'] ++
          ['a', 'b'].drop (end_count (line_infos_of ctxW ['a', 'b']) (Cursor.Idx ⟨0, 0⟩))) ∧
      start_count (line_infos_of ctxW ['a', 'b']) (Cursor.Idx ⟨0, 0⟩) ≤
        end_count (line_infos_of ctxW ['a', 'b']) (Cursor.Idx ⟨0, 0⟩) ∧
      end_count (line_infos_of ctxW ['a', 'b']) (Cursor.Idx ⟨0, 0⟩) ≤
        (['a', 'b'] : List Char).length ∧
      (['X', 'a', 'b'] : List Char).length +
          (end_count (line_infos_of ctxW ['a', 'b']) (Cursor.Idx ⟨0, 0⟩) -
            start_count (line_infos_of ctxW ['a', 'b']) (Cursor.Idx ⟨0, 0⟩)) =
        (['a', 'b'] : List Char).length + (['X'] : List Char).length) :=
  ⟨by decide,
   C3_accepted_insert_splice ctxW ['X'] (Cursor.Idx ⟨0, 0⟩) ['a', 'b']
     (line_infos_of ctxW ['a', 'b']) rfl (by decide)
     ['X', 'a', 'b'] (Cursor.Idx ⟨0, 1⟩) [⟨['X', 'a', 'b'], none⟩] (by decide)⟩

/-- C4: a Backspace with the cursor at index `(0,0)` (absolute character
position 0) leaves the whole state — text, cursor and line descriptors —
unchanged and does not fail. -/
theorem C4_backspace_at_origin_noop (ctx : Ctx) (s : EState) (ctrl : Bool)
    (h : s.cursor = Cursor.Idx ⟨0, 0⟩) :
    processEvent ctx s (Event.pressKey ctrl Key.backspace) = Except.ok s := by
  cases hinfos : s.lineInfos with
  | nil =>
    simp [processEvent, processKey, h, hinfos, index_after_cursor]
  | cons li rest =>
    have h0 : index_after_cursor (li :: rest) ⟨0, 0⟩ = some 0 := by
      rw [index_after_cons_zero, if_pos (Nat.zero_le _)]
    simp [processEvent, processKey, h, hinfos, h0]

/-- C4 witness: Backspace on `Idx(0,0)` with text `"abc"` changes
nothing. -/
theorem C4_backspace_at_origin_noop_witness :
    processEvent ctxW
      { text := ['a', 'b', 'c'], cursor := Cursor.Idx ⟨0, 0⟩, drag := none,
        lineInfos := line_infos_of ctxW ['a', 'b', 'c'] }
      (Event.pressKey false Key.backspace) =
      Except.ok
        { text := ['a', 'b', 'c'], cursor := Cursor.Idx ⟨0, 0⟩, drag := none,
          lineInfos := line_infos_of ctxW ['a', 'b', 'c'] } :=
  C4_backspace_at_origin_noop ctxW _ false rfl

/-- C5: with a `Selection{start, end}` cursor, Left without Ctrl sets the
cursor to `Idx(min(start, end))` and Right without Ctrl to
`Idx(max(start, end))` in the lexicographic `(line, char)` order, while
Left and Right with Ctrl leave the cursor unchanged. -/
theorem C5_left_right_selection (ctx : Ctx) (s : EState) (st en : Index)
    (h : s.cursor = Cursor.Selection st en) :
    processEvent ctx s (Event.pressKey false Key.left) =
      Except.ok { s with cursor := Cursor.Idx (cmpMin st en) } ∧
    processEvent ctx s (Event.pressKey false Key.right) =
      Except.ok { s with cursor := Cursor.Idx (cmpMax st en) } ∧
    processEvent ctx s (Event.pressKey true Key.left) = Except.ok s ∧
    processEvent ctx s (Event.pressKey true Key.right) = Except.ok s ∧
    (Index.lexLt st en → cmpMin st en = st ∧ cmpMax st en = en) ∧
    (Index.lexLt en st → cmpMin st en = en ∧ cmpMax st en = st) ∧
    (st = en → cmpMin st en = st ∧ cmpMax st en = en) := by
  refine ⟨?_, ?_, ?_, ?_, ?_, ?_, ?_⟩
  · simp [processEvent, processKey, h]
  · simp [processEvent, processKey, h]
  · simp [processEvent, processKey]
  · simp [processEvent, processKey]
  · intro hlt
    have hn := lexLt_asymm st en hlt
    exact ⟨by simp [cmpMin, hn], by simp [cmpMax, hn]⟩
  · intro hlt
    exact ⟨by simp [cmpMin, hlt], by simp [cmpMax, hlt]⟩
  · intro he
    subst he
    have hn := lexLt_irrefl st
    exact ⟨by simp [cmpMin, hn], by simp [cmpMax, hn]⟩

/-- C5 witness: a concrete selection collapsed by Left and Right, with
and without Ctrl. -/
theorem C5_left_right_selection_witness :
    (processEvent ctxW
        { text := ['a', 'b'], cursor := Cursor.Selection ⟨0, 2⟩ ⟨0, 1⟩, drag := none,
          lineInfos := line_infos_of ctxW ['a', 'b'] }
        (Event.pressKey false Key.left) =
      Except.ok
        { text := ['a', 'b'], cursor := Cursor.Idx (cmpMin ⟨0, 2⟩ ⟨0, 1⟩), drag := none,
          lineInfos := line_infos_of ctxW ['a', 'b'] }) ∧
    (processEvent ctxW
        { text := ['a', 'b'], cursor := Cursor.Selection ⟨0, 2⟩ ⟨0, 1⟩, drag := none,
          lineInfos := line_infos_of ctxW ['a', 'b'] }
        (Event.pressKey true Key.right) =
      Except.ok
        { text := ['a', 'b'], cursor := Cursor.Selection ⟨0, 2⟩ ⟨0, 1⟩, drag := none,
          lineInfos := line_infos_of ctxW ['a', 'b'] }) ∧
    cmpMin ⟨0, 2⟩ ⟨0, 1⟩ = (⟨0, 1⟩ : Index) :=
  ⟨(C5_left_right_selection ctxW _ ⟨0, 2⟩ ⟨0, 1⟩ rfl).1,
   (C5_left_right_selection ctxW _ ⟨0, 2⟩ ⟨0, 1⟩ rfl).2.2.2.1,
   by decide⟩

/-- C7: a Text-insert event with Ctrl held, or with an empty string, or
whose string is one of the four reserved glyphs `U+F700`..`U+F703`, is
ignored (the whole state is unchanged); any other Text-insert event
invokes the insertion operation. -/
theorem C7_text_event_filter (ctx : Ctx) (s : EState) (string : List Char)
    (ctrl : Bool) :
    processEvent ctx s (Event.textEvent true string) = Except.ok s ∧
    processEvent ctx s (Event.textEvent ctrl []) = Except.ok s ∧
    (string ∈ reserved_strings →
      processEvent ctx s (Event.textEvent ctrl string) = Except.ok s) ∧
    (string ≠ [] → string ∉ reserved_strings →
      processEvent ctx s (Event.textEvent false string) =
        match insert_text ctx string s.cursor s.text s.lineInfos with
        | some (nt, nc, ni) =>
          Except.ok { s with text := nt, cursor := nc, lineInfos := ni }
        | none => Except.ok s) := by
  refine ⟨?_, ?_, ?_, ?_⟩
  · simp [processEvent]
  · simp [processEvent]
  · intro hmem
    simp only [processEvent]
    by_cases h1 : ctrl = true ∨ string.length = 0 ∨ string.head? = none
    · rw [if_pos h1]
    · rw [if_neg h1, if_pos hmem]
  · intro hne hres
    simp only [processEvent]
    have h1 : ¬(false = true ∨ string.length = 0 ∨ string.head? = none) := by
      simp [hne]
    rw [if_neg h1, if_neg hres]

/-- C7 witness: the filter at a concrete state — Ctrl-modified text,
a reserved glyph, and a plain insertion that reaches `insert_text`. -/
theorem C7_text_event_filter_witness :
    processEvent ctxW (sAb ctxW) (Event.textEvent true ['X']) = Except.ok (sAb ctxW) ∧
    processEvent ctxW (sAb ctxW) (Event.textEvent false ['']) =
      Except.ok (sAb ctxW) ∧
    (processEvent ctxW (sAb ctxW) (Event.textEvent false ['X']) =
      match insert_text ctxW ['X'] (sAb ctxW).cursor (sAb ctxW).text
          (sAb ctxW).lineInfos with
      | some (nt, nc, ni) =>
        Except.ok { (sAb ctxW) with text := nt, cursor := nc, lineInfos := ni }
      | none => Except.ok (sAb ctxW)) :=
  ⟨(C7_text_event_filter ctxW (sAb ctxW) ['X'] true).1,
   (C7_text_event_filter ctxW (sAb ctxW) [''] false).2.2.1 (by decide),
   (C7_text_event_filter ctxW (sAb ctxW) ['X'] false).2.2.2 (by decide) (by decide)⟩

/-- C8: Ctrl+A sets the cursor to a selection from `(0,0)` to
`index_before(total character count)` computed against the current line
descriptors. -/
theorem C8_ctrl_a_select_all (ctx : Ctx) (s : EState)
    (hsync : s.lineInfos = line_infos_of ctx s.text) :
    ∃ en, index_before_char s.lineInfos s.text.length = some en ∧
      processEvent ctx s (Event.pressKey true Key.a) =
        Except.ok { s with cursor := Cursor.Selection ⟨0, 0⟩ en } := by
  have hsome : (index_before_char s.lineInfos s.text.length).isSome = true := by
    rw [hsync]
    exact index_before_line_infos_isSome ctx s.text _ (Nat.le_refl _)
  obtain ⟨en, hen⟩ := Option.isSome_iff_exists.mp hsome
  refine ⟨en, hen, ?_⟩
  simp only [processEvent, processKey, if_true]
  rw [hen]

/-- Witness state over the empty text. -/
def sEmpty : EState :=
  { text := [], cursor := Cursor.Idx ⟨0, 0⟩, drag := none,
    lineInfos := line_infos_of ctxW [] }

/-- C8 witness: select-all on the empty text yields
`Selection{start:(0,0), end:(0,0)}`. -/
theorem C8_ctrl_a_select_all_witness :
    (∃ en, index_before_char sEmpty.lineInfos sEmpty.text.length = some en ∧
      processEvent ctxW sEmpty (Event.pressKey true Key.a) =
        Except.ok { sEmpty with cursor := Cursor.Selection ⟨0, 0⟩ en }) ∧
    processEvent ctxW sEmpty (Event.pressKey true Key.a) =
      Except.ok { sEmpty with cursor := Cursor.Selection ⟨0, 0⟩ ⟨0, 0⟩ } :=
  ⟨C8_ctrl_a_select_all ctxW sEmpty rfl, by decide⟩

/-- C9: a left press sets `drag = Selecting` and the cursor to the index
nearest the press point (which exists whenever there is at least one
line, and fails exactly when there are zero lines); a left release sets
`drag = None`; neither touches the text or the line descriptors. -/
theorem C9_press_release (ctx : Ctx) (s : EState) (relXy : ℤ × ℤ) :
    (closest_cursor_index_and_xy ctx
        (vec2_add relXy (ctx.rect.centerX, ctx.rect.centerY)) s.lineInfos = none ↔
      s.lineInfos = []) ∧
    (∀ i, closest_cursor_index_and_xy ctx
        (vec2_add relXy (ctx.rect.centerX, ctx.rect.centerY)) s.lineInfos = some i →
      processEvent ctx s (Event.pressMouseLeft relXy) =
        Except.ok { s with cursor := Cursor.Idx i, drag := some Drag.Selecting }) ∧
    (s.lineInfos = [] →
      processEvent ctx s (Event.pressMouseLeft relXy) =
        Except.ok { s with drag := some Drag.Selecting }) ∧
    processEvent ctx s Event.releaseMouseLeft = Except.ok { s with drag := none } := by
  refine ⟨?_, ?_, ?_, rfl⟩
  · cases hinfos : s.lineInfos with
    | nil => simp [closest_cursor_index_and_xy]
    | cons li rest => simp [closest_cursor_index_and_xy]
  · intro i hi
    simp only [processEvent]
    rw [hi]
  · intro hinfos
    simp [processEvent, hinfos, closest_cursor_index_and_xy]

/-- C9 witness: a concrete press lands on the nearest boundary of the
single line of `"ab"`, and a release clears the drag. -/
theorem C9_press_release_witness :
    processEvent ctxW (sAb ctxW) (Event.pressMouseLeft (-48, 45)) =
      Except.ok
        { (sAb ctxW) with cursor := Cursor.Idx ⟨0, 2⟩, drag := some Drag.Selecting } ∧
    processEvent ctxW (sAb ctxW) Event.releaseMouseLeft =
      Except.ok { (sAb ctxW) with drag := none } :=
  ⟨(C9_press_release ctxW (sAb ctxW) (-48, 45)).2.1 ⟨0, 2⟩ (by decide),
   (C9_press_release ctxW (sAb ctxW) (-48, 45)).2.2.2⟩

/-- C1: with height restriction enabled, an insertion (Text event or
Return) whose spliced text wraps to a height at or above the
rectangle's height returns `none` and leaves the state triple untouched
by value; when the height is strictly below the rectangle's height or
restriction is disabled, the edit is applied. -/
theorem C1_insert_height_restriction (ctx : Ctx) (s : EState) (string : List Char) :
    (ctx.restrict_to_height = true →
      ctx.rect.h ≤ attempted_height ctx string s.cursor s.text s.lineInfos →
      insert_text ctx string s.cursor s.text s.lineInfos = none ∧
      processEvent ctx s (Event.textEvent false string) = Except.ok s) ∧
    (ctx.restrict_to_height = true →
      ctx.rect.h ≤ attempted_height ctx ['\n'] s.cursor s.text s.lineInfos →
      insert_text ctx ['\n'] s.cursor s.text s.lineInfos = none ∧
      ∀ ctrl, processEvent ctx s (Event.pressKey ctrl Key.ret) = Except.ok s) ∧
    (attempted_height ctx string s.cursor s.text s.lineInfos < ctx.rect.h ∨
        ctx.restrict_to_height = false →
      string ≠ [] → string ∉ reserved_strings →
      ∃ nt nc ni,
        insert_text ctx string s.cursor s.text s.lineInfos = some (nt, nc, ni) ∧
        processEvent ctx s (Event.textEvent false string) =
          Except.ok { s with text := nt, cursor := nc, lineInfos := ni }) ∧
    (attempted_height ctx ['\n'] s.cursor s.text s.lineInfos < ctx.rect.h ∨
        ctx.restrict_to_height = false →
      ∃ nt nc ni,
        insert_text ctx ['\n'] s.cursor s.text s.lineInfos = some (nt, nc, ni) ∧
        ∀ ctrl, processEvent ctx s (Event.pressKey ctrl Key.ret) =
          Except.ok { s with text := nt, cursor := nc, lineInfos := ni }) := by
  have hnone : ∀ (str : List Char), ctx.restrict_to_height = true →
      ctx.rect.h ≤ attempted_height ctx str s.cursor s.text s.lineInfos →
      insert_text ctx str s.cursor s.text s.lineInfos = none := by
    intro str hr hh
    unfold insert_text
    rw [if_neg]
    rw [hr]
    intro hor
    rcases hor with hlt | hf
    · exact absurd hlt (not_lt.mpr hh)
    · cases hf
  have hignore : ∀ (str : List Char),
      insert_text ctx str s.cursor s.text s.lineInfos = none →
      processEvent ctx s (Event.textEvent false str) = Except.ok s := by
    intro str hn
    simp only [processEvent]
    split
    · rfl
    · split
      · rfl
      · rw [hn]
  have hret : ∀ (ctrl : Bool),
      insert_text ctx ['\n'] s.cursor s.text s.lineInfos = none →
      processEvent ctx s (Event.pressKey ctrl Key.ret) = Except.ok s := by
    intro ctrl hn
    simp only [processEvent, processKey]
    rw [hn]
  have hsome : ∀ (str : List Char),
      (attempted_height ctx str s.cursor s.text s.lineInfos < ctx.rect.h ∨
        ctx.restrict_to_height = false) →
      insert_text ctx str s.cursor s.text s.lineInfos =
        some (spliced str s.cursor s.text s.lineInfos,
          Cursor.Idx ((index_before_char
              (line_infos_of ctx (spliced str s.cursor s.text s.lineInfos))
              (start_count s.lineInfos s.cursor + str.length)).getD ⟨0, str.length⟩),
          line_infos_of ctx (spliced str s.cursor s.text s.lineInfos)) := by
    intro str hacc
    unfold insert_text
    rw [if_pos hacc]
  refine ⟨?_, ?_, ?_, ?_⟩
  · intro hr hh
    exact ⟨hnone string hr hh, hignore string (hnone string hr hh)⟩
  · intro hr hh
    exact ⟨hnone ['\n'] hr hh, fun ctrl => hret ctrl (hnone ['\n'] hr hh)⟩
  · intro hacc hne hres
    refine ⟨_, _, _, hsome string hacc, ?_⟩
    simp only [processEvent]
    have hg1 : ¬(false = true ∨ string.length = 0 ∨ string.head? = none) := by
      simp [hne]
    rw [if_neg hg1, if_neg hres, hsome string hacc]
  · intro hacc
    refine ⟨_, _, _, hsome ['\n'] hacc, fun ctrl => ?_⟩
    simp only [processEvent, processKey]
    rw [hsome ['\n'] hacc]

/-- C1 witness: inserting `"X"` into `"ab"` is rejected inside a
5-unit-high rectangle (state untouched) and applied inside a
100-unit-high one. -/
theorem C1_insert_height_restriction_witness :
    (insert_text ctxSmall ['X'] (sAb ctxSmall).cursor (sAb ctxSmall).text
        (sAb ctxSmall).lineInfos = none ∧
      processEvent ctxSmall (sAb ctxSmall) (Event.textEvent false ['X']) =
        Except.ok (sAb ctxSmall)) ∧
    (∃ nt nc ni,
      insert_text ctxW ['X'] (sAb ctxW).cursor (sAb ctxW).text
        (sAb ctxW).lineInfos = some (nt, nc, ni) ∧
      processEvent ctxW (sAb ctxW) (Event.textEvent false ['X']) =
        Except.ok { (sAb ctxW) with text := nt, cursor := nc, lineInfos := ni }) :=
  ⟨(C1_insert_height_restriction ctxSmall (sAb ctxSmall) ['X']).1
      (by decide) (by decide),
   (C1_insert_height_restriction ctxW (sAb ctxW) ['X']).2.2.1
      (by decide) (by decide) (by decide)⟩

/-- State exhibiting the stale-descriptor cursor of the
Backspace-Selection arm: `"ab cdef"` wrapped at width 5 into the lines
`"ab "` and `"cdef"`, with the selection covering `"def"`. -/
def sC2 : EState :=
  { text := ['a', 'b', ' ', 'c', 'd', 'e', 'f'],
    cursor := Cursor.Selection ⟨1, 1⟩ ⟨1, 4⟩, drag := none,
    lineInfos := line_infos_of ctxNarrow ['a', 'b', ' ', 'c', 'd', 'e', 'f'] }

/-- C2: evaluation of the Backspace-Selection arm at a concrete input.
Deleting the selection `"def"` leaves the text `"ab c"`, which re-wraps
to a single line, but the code computes the new cursor with
`index_before_char` against the descriptors from before the deletion
and yields `Idx(1,1)` — the claim's cursor
`index_before(start_count) = (0,4)` against the new descriptors differs,
and `(1,1)` does not even exist in the new single-line layout. -/
theorem C2_backspace_selection_stale_cursor :
    processEvent ctxNarrow sC2 (Event.pressKey false Key.backspace) =
      Except.ok
        { text := ['a', 'b', ' ', 'c'], cursor := Cursor.Idx ⟨1, 1⟩, drag := none,
          lineInfos := [⟨['a', 'b', ' ', 'c'], none⟩] } ∧
    start_count sC2.lineInfos sC2.cursor = 4 ∧
    index_before_char (line_infos_of ctxNarrow ['a', 'b', ' ', 'c']) 4 =
      some ⟨0, 4⟩ ∧
    Cursor.Idx ⟨1, 1⟩ ≠ Cursor.Idx ⟨0, 4⟩ ∧
    ¬ valid_index [⟨['a', 'b', ' ', 'c'], none⟩] ⟨1, 1⟩ := by decide

/-- State exhibiting the missing upper clamp of the Up/Down arm: one
line `"ab"` whose glyph `a` has zero width, caret after the `b`. -/
def sC6 : EState :=
  { text := ['a', 'b'], cursor := Cursor.Idx ⟨0, 1⟩, drag := none,
    lineInfos := line_infos_of ctxZero ['a', 'b'] }

/-- C6 counterexample: on the last (only) line, a Down press leaves the
cursor at `(0,1)`, while the claim's clamped move — nearest index on
the clamped target line at the same x — yields `(0,0)` (the zero-width
first glyph puts two boundaries at the same x and the tie prefers the
earlier one). -/
theorem C6_up_down_counterexample :
    processEvent ctxZero sC6 (Event.pressKey false Key.down) = Except.ok sC6 ∧
    move_vertical_claim ctxZero sC6.lineInfos ⟨0, 1⟩ false = some ⟨0, 0⟩ ∧
    sC6.cursor = Cursor.Idx ⟨0, 1⟩ ∧
    Cursor.Idx ⟨0, 1⟩ ≠ Cursor.Idx ⟨0, 0⟩ := by decide

/-- C6 amended: an Up or Down press resolves the anchor's x position and
takes the nearest index at that x on the line above (saturating at line
zero) or below (with no upper clamp); whenever the position cannot be
resolved or the target line does not exist, the cursor keeps the anchor
index; the result is always an `Idx` cursor built from the selection's
anchor start when a selection is active. -/
theorem C6_up_down_amended (ctx : Ctx) (s : EState) (ctrl : Bool) :
    processEvent ctx s (Event.pressKey ctrl Key.up) =
      Except.ok
        { s with
          cursor := Cursor.Idx
            (move_vertical_amended ctx s.lineInfos (cursor_anchor s.cursor) true) } ∧
    processEvent ctx s (Event.pressKey ctrl Key.down) =
      Except.ok
        { s with
          cursor := Cursor.Idx
            (move_vertical_amended ctx s.lineInfos (cursor_anchor s.cursor) false) } := by
  have he : ∀ isUp : Bool, vertical_move ctx s isUp =
      move_vertical_amended ctx s.lineInfos (cursor_anchor s.cursor) isUp := by
    intro isUp
    unfold vertical_move move_vertical_amended
    cases hxy : xy_at ctx s.lineInfos (cursor_anchor s.cursor) with
    | none => simp [hxy]
    | some x =>
      simp only [hxy, Option.some_bind]
      cases hg : get_index_on_line ctx x
          (if isUp then (cursor_anchor s.cursor).line - 1
            else (cursor_anchor s.cursor).line + 1) s.lineInfos with
      | none => simp [hg]
      | some i => simp [hg]
  constructor
  · have h1 : processEvent ctx s (Event.pressKey ctrl Key.up) =
        Except.ok { s with cursor := Cursor.Idx (vertical_move ctx s true) } := rfl
    rw [h1, he true]
  · have h2 : processEvent ctx s (Event.pressKey ctrl Key.down) =
        Except.ok { s with cursor := Cursor.Idx (vertical_move ctx s false) } := rfl
    rw [h2, he false]

theorem processEvent_drag_step (ctx : Ctx) (s : EState) (e : Event)
    (h : dragOK s.drag) :
    processEvent ctx s e ≠ Except.error Abort.moveSelectionUnimplemented ∧
    ∀ s', processEvent ctx s e = Except.ok s' → dragOK s'.drag := by
  constructor
  · intro hc
    cases e with
    | pressMouseLeft relXy =>
      simp only [processEvent] at hc
      cases hc
    | pressKey ctrl k =>
      cases k <;> simp only [processEvent, processKey] at hc <;>
        (repeat' split at hc) <;> cases hc
    | releaseMouseLeft =>
      simp only [processEvent] at hc
      cases hc
    | textEvent ctrl string =>
      simp only [processEvent] at hc
      repeat' split at hc
      all_goals cases hc
    | dragMouseLeft toXy =>
      rcases h with hd | hd
      · simp only [processEvent, hd] at hc
        cases hc
      · simp only [processEvent, hd] at hc
        repeat' split at hc
        all_goals cases hc
    | unhandled =>
      simp only [processEvent] at hc
      cases hc
  · intro s' hs'
    cases e with
    | pressMouseLeft relXy =>
      simp only [processEvent] at hs'
      cases hs'
      right; rfl
    | pressKey ctrl k =>
      cases k <;> simp only [processEvent, processKey] at hs' <;>
        (repeat' split at hs') <;> (try cases hs') <;> exact h
    | releaseMouseLeft =>
      simp only [processEvent] at hs'
      cases hs'
      left; rfl
    | textEvent ctrl string =>
      simp only [processEvent] at hs'
      repeat' split at hs'
      all_goals (cases hs'; exact h)
    | dragMouseLeft toXy =>
      rcases h with hd | hd
      · simp only [processEvent, hd] at hs'
        cases hs'
        exact Or.inl hd
      · simp only [processEvent, hd] at hs'
        repeat' split at hs'
        all_goals cases hs'
        all_goals first
          | exact Or.inr rfl
          | exact Or.inr hd
    | unhandled =>
      simp only [processEvent] at hs'
      cases hs'
      exact h

theorem runEvents_drag (ctx : Ctx) :
    ∀ (events : List Event) (s : EState), dragOK s.drag →
      runEvents ctx s events ≠ Except.error Abort.moveSelectionUnimplemented ∧
      ∀ s', runEvents ctx s events = Except.ok s' → dragOK s'.drag := by
  intro events
  induction events with
  | nil =>
    intro s h
    constructor
    · intro hc
      cases hc
    · intro s' hs'
      cases hs'
      exact h
  | cons e es ih =>
    intro s h
    obtain ⟨hne, hok⟩ := processEvent_drag_step ctx s e h
    simp only [runEvents]
    cases hpe : processEvent ctx s e with
    | ok s1 => exact ih s1 (hok s1 hpe)
    | error a =>
      refine ⟨fun hc => ?_, fun s' hs' => by cases hs'⟩
      have ha : a = Abort.moveSelectionUnimplemented := by
        injection hc
      subst ha
      exact hne hpe

/-- C10: in every state reachable from the initial state (caret `(0,0)`,
no drag) through complete update cycles, the drag field is `None` or
`Selecting` — never `MoveSelection` — so no update cycle from such a
state can abort through the unimplemented `MoveSelection` drag arm. -/
theorem C10_drag_invariant (s : EState) (hreach : Reachable s) :
    dragOK s.drag ∧
    ∀ (ctx : Ctx) (events : List Event),
      runCycle ctx s events ≠ Except.error Abort.moveSelectionUnimplemented := by
  induction hreach with
  | init text =>
    refine ⟨Or.inl rfl, fun ctx events => ?_⟩
    exact (runEvents_drag ctx events
      { init_state text with lineInfos := line_infos_of ctx (init_state text).text }
      (Or.inl rfl)).1
  | cycle s s' ctx events hr hrun ih =>
    have hdrag' : dragOK s'.drag :=
      (runEvents_drag ctx events
        { s with lineInfos := line_infos_of ctx s.text } ih.1).2 s' hrun
    exact ⟨hdrag', fun ctx2 events2 =>
      (runEvents_drag ctx2 events2
        { s' with lineInfos := line_infos_of ctx2 s'.text } hdrag').1⟩

/-- Event batch used by the C10 witness: press, drag, release. -/
def evsW : List Event :=
  [Event.pressMouseLeft (-48, 45), Event.dragMouseLeft (-48, 45),
    Event.releaseMouseLeft]

/-- C10 witness: the invariant and the absence of the `MoveSelection`
abort, instantiated at the initial state over `"ab"` with a concrete
press/drag/release cycle. -/
theorem C10_drag_invariant_witness :
    dragOK (init_state ['a', 'b']).drag ∧
    runCycle ctxW (init_state ['a', 'b']) evsW ≠
      Except.error Abort.moveSelectionUnimplemented :=
  ⟨(C10_drag_invariant _ (Reachable.init ['a', 'b'])).1,
   (C10_drag_invariant _ (Reachable.init ['a', 'b'])).2 ctxW evsW⟩

end TextEditModel
